import Mathlib

/-!
Shallow embedding of `builtin/reset.c` (the `git reset` builtin).

The staged index is an association list from paths to cache entries; trees
are association lists from paths to (file mode, content address); the
repository state (`Repo`) carries the index, the working files, the HEAD
and ORIG_HEAD references with their reflogs, the object store, and the
flags the command consults.  `cmd_reset` follows the control flow of the
source function of the same name; external collaborators that are not part
of this repository's single source file (the one-way/two-way tree merges of
`unpack_trees`, the diff engine, the reference store's compare-and-swap
updates, pretty-printing, the interactive patch subsystem) are modelled
from the specification, each marked as such in its doc comment.
-/

namespace GitReset

/-- Content addresses are modelled as natural numbers. -/
abbrev Oid := Nat

/-- The all-zero (null) object id, `is_null_oid`. -/
def nullOid : Oid := 0

/-- The content address of the empty blob, the object name given to
intent-to-add placeholder entries (`set_object_name_for_intent_to_add_entry`). -/
def emptyBlobOid : Oid := 1

/-- The canonical empty-tree reference, `the_hash_algo->empty_tree`. -/
def emptyTreeOid : Oid := 2

/-- One staged-index entry: file mode, content address, conflict stage and
the intent-to-add flag (`CE_INTENT_TO_ADD`). -/
structure CacheEntry where
  mode : Nat
  oid : Oid
  stage : Nat
  intentToAdd : Bool
deriving DecidableEq, Repr

/-- The staged index: an association list from paths to cache entries. -/
abbrev Index := List (String × CacheEntry)

/-- A tree: an association list from paths to (mode, content address). -/
abbrev Tree := List (String × (Nat × Oid))

/-- The (mode, content address) value carried by an index entry. -/
def ceVal (c : CacheEntry) : Nat × Oid := (c.mode, c.oid)

/-- Modelled from the spec: `make_cache_entry` (external, read-cache.c), which
builds a stage-0 entry from a mode and a content address. -/
def mkEntry (m : Nat) (o : Oid) : CacheEntry := ⟨m, o, 0, false⟩

/-- Association-list lookup by key (first match). -/
def alookup {κ β : Type} [DecidableEq κ] (k : κ) : List (κ × β) → Option β
  | [] => none
  | e :: es => if e.1 = k then some e.2 else alookup k es

/-- A tree's (mode, address) at a path, if present. -/
def treeLookup (t : Tree) (p : String) : Option (Nat × Oid) := alookup p t

/-- The index's (mode, address) at a path, if present. -/
def idxVal (idx : Index) (p : String) : Option (Nat × Oid) :=
  (alookup p idx).map ceVal

/-- `enum reset_type { MIXED, SOFT, HARD, MERGE, KEEP, NONE }`. -/
inductive ResetType
  | MIXED | SOFT | HARD | MERGE | KEEP | NONE
deriving DecidableEq, Repr

/-- `reset_type_names`. -/
def typeName : ResetType → String
  | .MIXED => "mixed"
  | .SOFT => "soft"
  | .HARD => "hard"
  | .MERGE => "merge"
  | .KEEP => "keep"
  | .NONE => "none"

/-- A revision argument: either the literal string "HEAD" (the default) or a
revision expression already resolved to a raw object id by `get_oid`. -/
inductive Rev
  | head
  | rid (n : Nat)
deriving DecidableEq, Repr

/-- The revision string, as it appears in messages and reflog entries. -/
def revToString : Rev → String
  | .head => "HEAD"
  | .rid n => toString n

/-- Mutation events on persisted state, in the order the run performs them. -/
inductive Ev
  | commitIndex
  | writeWorkFiles
  | writeOrigHead
  | deleteOrigHead
  | writeHead
deriving DecidableEq, Repr

/-- The persisted repository state visible to `cmd_reset`. -/
structure Repo where
  index : Index
  workTree : List (String × Oid)
  head : Option Oid
  origHead : Option Oid
  headLog : List String
  origHeadLog : List String
  commits : List (Oid × Oid)
  trees : List (Oid × Tree)
  mergeInProgress : Bool
  branchState : Bool
  bare : Bool
  hasWorkTree : Bool
  refStoreFails : Bool
deriving DecidableEq, Repr

/-- The parsed command-line invocation, as it stands after option parsing. -/
structure Args where
  resetTypeArg : ResetType
  quiet : Bool
  patch : Bool
  intentToAdd : Bool
  rev : Rev
  pathspec : List String
  rla : Option String
deriving DecidableEq, Repr

/-- The observable result of one run: `died` is the fatal message of `die`
(if any), `status` the exit status otherwise, `repo` the persisted state at
termination, `output` the lines printed, `trace` the mutation events. -/
structure RunResult where
  died : Option String
  status : Nat
  repo : Repo
  output : List String
  trace : List Ev
deriving DecidableEq, Repr

/-- A run terminated by `die` before committing anything further. -/
def mkDied (r : Repo) (msg : String) : RunResult :=
  { died := some msg, status := 128, repo := r, output := [], trace := [] }

/-- Line 359: `unborn = !strcmp(rev, "HEAD") && get_oid("HEAD", &oid)`. -/
def unbornOf (r : Repo) (a : Args) : Bool :=
  decide (a.rev = Rev.head ∧ r.head = none)

/-- `get_oid` on the revision argument. -/
def resolveOid (r : Repo) : Rev → Option Oid
  | .head => r.head
  | .rid n => some n

/-- Modelled from the spec: `parse_tree_indirect` (external object store):
peel a commit to its tree, or accept a tree id directly. -/
def parse_tree_indirect (r : Repo) (o : Oid) : Option Oid :=
  match alookup o r.commits with
  | some t => some t
  | none => if o = emptyTreeOid ∨ (alookup o r.trees).isSome then some o else none

/-- Modelled from the spec: tree loading (`fill_tree_descriptor`): look up the
tree entries for an object id, peeling commits, with the canonical empty
tree always available. -/
def load_tree (r : Repo) (o : Oid) : Option Tree :=
  (parse_tree_indirect r o).bind fun t =>
    if t = emptyTreeOid then some [] else alookup t r.trees

/-- Lines 359-379 of `cmd_reset`: resolve the revision argument into the
unborn flag and the target object id — the commit id when no pathspec was
given, the tree id otherwise. -/
def resolveTarget (r : Repo) (a : Args) : Except String (Bool × Oid) :=
  if unbornOf r a then .ok (true, emptyTreeOid)
  else if a.pathspec = [] then
    match resolveOid r a.rev with
    | none => .error ("Failed to resolve '" ++ revToString a.rev ++ "' as a valid revision.")
    | some o =>
      match alookup o r.commits with
      | none => .error ("Could not parse object '" ++ revToString a.rev ++ "'.")
      | some _ => .ok (false, o)
  else
    match resolveOid r a.rev with
    | none => .error ("Failed to resolve '" ++ revToString a.rev ++ "' as a valid tree.")
    | some o =>
      match parse_tree_indirect r o with
      | none => .error ("Could not parse object '" ++ revToString a.rev ++ "'.")
      | some t => .ok (false, t)

/-- Line 397-398: an unspecified mode defaults to MIXED. -/
def effType (a : Args) : ResetType :=
  if a.resetTypeArg = ResetType.NONE then ResetType.MIXED else a.resetTypeArg

/-- `unmerged_cache`: the index holds an entry with a nonzero conflict stage. -/
def unmergedCache (idx : Index) : Bool :=
  idx.any fun e => decide (e.2.stage ≠ 0)

/-- Lines 390-414 of `cmd_reset`: mode/pathspec compatibility, the MIXED
default, `setup_work_tree` (external; modelled as failing exactly when no
working tree is available), the bare-repository check, the intent-to-add
check, and the unmerged-state guard for SOFT and KEEP. -/
def validate (r : Repo) (a : Args) : Except String ResetType :=
  if a.pathspec ≠ [] ∧ a.resetTypeArg ≠ ResetType.MIXED ∧ a.resetTypeArg ≠ ResetType.NONE then
    .error ("Cannot do " ++ typeName a.resetTypeArg ++ " reset with paths.")
  else if effType a ≠ ResetType.SOFT ∧ (effType a ≠ ResetType.MIXED ∨ r.hasWorkTree) ∧
          ¬ r.hasWorkTree then
    .error "This operation must be run in a work tree"
  else if effType a = ResetType.MIXED ∧ r.bare then
    .error "mixed reset is not allowed in a bare repository"
  else if a.intentToAdd ∧ effType a ≠ ResetType.MIXED then
    .error "-N can only be used with --mixed"
  else if (effType a = ResetType.SOFT ∨ effType a = ResetType.KEEP) ∧
          (r.mergeInProgress ∨ unmergedCache r.index) then
    .error ("Cannot do a " ++ typeName (effType a) ++ " reset in the middle of a merge.")
  else
    .ok (effType a)

/-- Modelled from the spec: the PathSpec matcher (external); matching is
literal path membership, and an empty PathSpec matches every path. -/
def psMatch (ps : List String) (p : String) : Bool :=
  ps.isEmpty || ps.contains p

/-- One record of the diff between the target tree and the index, as seen by
`update_index_from_diff`: the path, and the tree side's mode and address
(`one`), zero when the path is absent from the tree. -/
structure DiffEntry where
  path : String
  mode : Nat
  oid : Oid
deriving DecidableEq, Repr

/-- The paths examined by the diff of a tree against the index. -/
def diffKeys (t : Tree) (idx : Index) : List String :=
  (t.map Prod.fst ++ idx.map Prod.fst).dedup

/-- The diff record for one path: the tree side's (mode, address), zero when
the path is absent from the tree. -/
def diffEntryAt (t : Tree) (p : String) : DiffEntry :=
  { path := p
    mode := ((treeLookup t p).getD (0, nullOid)).1
    oid := ((treeLookup t p).getD (0, nullOid)).2 }

/-- Modelled from the spec: the diff engine (`do_diff_cache` + `diffcore_std`
+ `diff_flush`, external): one record per path that matches the PathSpec and
whose (mode, address) differs between the target tree and the index, carrying
the tree side's value (zero when absent from the tree). -/
def diff_cache (t : Tree) (idx : Index) (ps : List String) : List DiffEntry :=
  ((diffKeys t idx).filter fun p =>
      psMatch ps p && decide (treeLookup t p ≠ idxVal idx p)).map (diffEntryAt t)

/-- `remove_file_from_cache`: drop every entry at the path. -/
def remove_file_from_cache (p : String) (idx : Index) : Index :=
  idx.filter fun e => decide (e.1 ≠ p)

/-- `add_cache_entry` with `ADD_CACHE_OK_TO_ADD | ADD_CACHE_OK_TO_REPLACE`:
replace any entry at the path with the new one. -/
def add_cache_entry (p : String) (ce : CacheEntry) (idx : Index) : Index :=
  (idx.filter fun e => decide (e.1 ≠ p)) ++ [(p, ce)]

/-- Line 132: `is_missing = !(one->mode && !is_null_oid(&one->oid))`. -/
def isMissingEntry (d : DiffEntry) : Bool :=
  !(decide (d.mode ≠ 0) && decide (d.oid ≠ nullOid))

/-- The index entry (or removal) a single diff record results in: the body of
the loop of `update_index_from_diff`, with
`set_object_name_for_intent_to_add_entry` modelled from the spec as giving
the placeholder zero content (the empty blob). -/
def diffResultEntry (ita : Bool) (d : DiffEntry) : Option CacheEntry :=
  if isMissingEntry d && !ita then none
  else some (if isMissingEntry d then
      { mkEntry d.mode d.oid with oid := emptyBlobOid, intentToAdd := true }
    else mkEntry d.mode d.oid)

/-- One iteration of the loop of `update_index_from_diff`. -/
def applyDiffEntry (ita : Bool) (idx : Index) (d : DiffEntry) : Index :=
  match diffResultEntry ita d with
  | none => remove_file_from_cache d.path idx
  | some ce => add_cache_entry d.path ce idx

/-- Lines 124-151: apply the queued diff records to the index. -/
def update_index_from_diff (q : List DiffEntry) (ita : Bool) (idx : Index) : Index :=
  q.foldl (applyDiffEntry ita) idx

/-- Lines 153-173: diff the target tree against the index, restricted to the
PathSpec, and apply the changes; fails (returns `none`) when the tree cannot
be read. -/
def read_from_tree (r : Repo) (ps : List String) (oid : Oid) (ita : Bool)
    (idx : Index) : Option Index :=
  match load_tree r oid with
  | none => none
  | some t => some (update_index_from_diff (diff_cache t idx ps) ita idx)

/-- Modelled from the spec: the one-way (overwrite) merge of `unpack_trees`
with `oneway_merge` (external): every path's index entry is forced to the
target tree's (mode, address); paths absent from the target are removed. -/
def oneway_merge_result (t : Tree) : Index :=
  t.map fun e => (e.1, mkEntry e.2.1 e.2.2)

/-- The paths examined by the two-way merge: those of either tree or of the
index. -/
def pathsOf3 (ht t : Tree) (i : Index) : List String :=
  (ht.map Prod.fst ++ t.map Prod.fst ++ i.map Prod.fst).dedup

/-- Modelled from the spec: the per-path rule of the two-way merge
(`twoway_merge`, external) used by KEEP: if the current tip and the target
agree at the path, keep the index entry unmodified; if they disagree and the
index's value is a conflicting local change, fail; otherwise take the
target's value. -/
def twoway_path (h t : Option (Nat × Oid)) (ie : Option CacheEntry) :
    Option (Option CacheEntry) :=
  if h = t then some ie
  else if ie.map ceVal ≠ h then none
  else some (t.map fun v => mkEntry v.1 v.2)

/-- One path's contribution to the two-way merge fold. -/
def twoway_step (ht t : Tree) (i : Index) (p : String) (acc : Option Index) :
    Option Index :=
  match acc with
  | none => none
  | some rest =>
    match twoway_path (treeLookup ht p) (treeLookup t p) (alookup p i) with
    | none => none
    | some none => some rest
    | some (some ce) => some ((p, ce) :: rest)

/-- The two-way merge folded over a list of paths. -/
def twoway_fold (ht t : Tree) (i : Index) : List String → Option Index
  | [] => some []
  | p :: l => twoway_step ht t i p (twoway_fold ht t i l)

/-- Modelled from the spec: the two-way merge of `unpack_trees` with
`twoway_merge` (external), folded over every relevant path; `none` when any
path conflicts. -/
def twoway_merge_result (ht t : Tree) (i : Index) : Option Index :=
  twoway_fold ht t i (pathsOf3 ht t i)

/-- Lines 48-108, `reset_index`: for KEEP, a two-way merge of HEAD's tree
against the target's tree over the index; for every other mode, the one-way
overwrite merge of the target's tree.  `read_cache_unmerged` is modelled per
the spec as loading the index as-is.  Errors mirror the source's failing
lookups and the merge conflict. -/
def reset_index (r : Repo) (idx : Index) (oid : Oid) (rt : ResetType) :
    Except String Index :=
  if rt = ResetType.KEEP then
    match r.head with
    | none => .error "You do not have a valid HEAD."
    | some h =>
      match load_tree r h with
      | none => .error "Failed to find tree of HEAD."
      | some ht =>
        match load_tree r oid with
        | none => .error "Failed to find tree of target."
        | some t =>
          match twoway_merge_result ht t idx with
          | none => .error "unpack_trees failed"
          | some idx' => .ok idx'
  else
    match load_tree r oid with
    | none => .error "Failed to find tree of target."
    | some t => .ok (oneway_merge_result t)

/-- The outcome of the index-reconciliation phase of `cmd_reset`
(lines 416-436). -/
inductive IdxRes
  | soft
  | ret1
  | failed (msg : String)
  | ok (idx : Index) (updateWT : Bool)
deriving DecidableEq, Repr

/-- Lines 416-436 of `cmd_reset`: SOFT skips the phase; MIXED runs the
pathspec-restricted diff-apply (`read_from_tree`), whose failure returns
exit status 1 without committing; the other modes run `reset_index`, KEEP
following its two-way merge with a one-way pass, dying on error.  The
update flag records whether `unpack_trees` materializes working files
(KEEP, MERGE, HARD). -/
def indexPhase (r : Repo) (rt : ResetType) (a : Args) (oid : Oid) : IdxRes :=
  if rt = ResetType.SOFT then .soft
  else if rt = ResetType.MIXED then
    match read_from_tree r a.pathspec oid a.intentToAdd r.index with
    | none => .ret1
    | some idx' => .ok idx' false
  else
    match reset_index r r.index oid rt with
    | .error _ =>
      .failed ("Could not reset index file to revision '" ++ revToString a.rev ++ "'.")
    | .ok idx1 =>
      if rt = ResetType.KEEP then
        match reset_index r idx1 oid ResetType.MIXED with
        | .error _ =>
          .failed ("Could not reset index file to revision '" ++ revToString a.rev ++ "'.")
        | .ok idx2 => .ok idx2 true
      else
        .ok idx1 true

/-- Lines 175-187, `set_reflog_message`: the reflog-action environment
variable, when set, is prefixed onto the action; otherwise the revision, when
given, is named in the default message. -/
def set_reflog_message (rla : Option String) (action : String) (rev : Option String) :
    String :=
  match rla with
  | some s => s ++ ": " ++ action
  | none =>
    match rev with
    | some rv => "reset: moving to " ++ rv
    | none => "reset: " ++ action

/-- Modelled from the spec: the reference store's compare-and-swap check
(external): a write succeeds when the store does not fail and the current
value matches the expected one (`none` expectation means no check, the NULL
old-value pointer of `update_ref`). -/
def ref_cas_ok (current expected : Option Oid) (fails : Bool) : Bool :=
  !fails && (match expected with
    | none => true
    | some v => current == some v)

/-- Lines 252-273, `reset_refs`: read ORIG_HEAD and HEAD; if HEAD has a
value, write ORIG_HEAD to it (CAS against the ORIG_HEAD just read, status
ignored); else if ORIG_HEAD had a value, delete it (CAS against that value);
finally write HEAD to the target (CAS against the HEAD just read), returning
that update's status.  Reference-store writes are modelled from the spec via
`ref_cas_ok`. -/
def reset_refs (rev : String) (oid : Oid) (rla : Option String) (r : Repo) :
    Nat × Repo × List Ev :=
  let old_orig := r.origHead
  let orig := r.head
  let step1 : Repo × List Ev :=
    match orig with
    | some o =>
      if ref_cas_ok r.origHead old_orig r.refStoreFails then
        ({ r with origHead := some o,
                  origHeadLog :=
                    r.origHeadLog ++ [set_reflog_message rla "updating ORIG_HEAD" none] },
         [Ev.writeOrigHead])
      else (r, [])
    | none =>
      match old_orig with
      | some v =>
        if ref_cas_ok r.origHead (some v) r.refStoreFails then
          ({ r with origHead := none }, [Ev.deleteOrigHead])
        else (r, [])
      | none => (r, [])
  let r1 := step1.1
  let msg := set_reflog_message rla "updating HEAD" (some rev)
  if ref_cas_ok r1.head orig r.refStoreFails then
    (0, { r1 with head := some oid, headLog := r1.headLog ++ [msg] },
     step1.2 ++ [Ev.writeHead])
  else
    (1, r1, step1.2)

/-- Modelled from the spec: the interactive patch-mode subsystem
(`run_add_interactive`, external), invoked in place of all reconciliation;
its own behaviour is outside this embedding. -/
def run_add_interactive (r : Repo) : RunResult :=
  { died := none, status := 0, repo := r, output := [], trace := [] }

/-- Modelled from the spec: `print_new_head_line` (pretty-printing external):
the human-readable summary of the new branch tip. -/
def headLine (o : Oid) : String := "HEAD is now at " ++ toString o

/-- `remove_branch_state` (external, branch.c): clear any in-progress
merge/cherry-pick/bisect markers. -/
def clearBranchState (r : Repo) : Repo :=
  { r with mergeInProgress := false, branchState := false }

/-- Commit the reconciled index (`write_locked_index`), together with the
working-file materialization `unpack_trees` performed for the updating
modes — modelled from the spec as the merged index's contents. -/
def commitIndexRepo (r : Repo) (idx : Index) (wt : Bool) : Repo :=
  if wt then { r with index := idx, workTree := idx.map fun e => (e.1, e.2.oid) }
  else { r with index := idx }

/-- Lines 438-447 of `cmd_reset`: for an empty pathspec and a born HEAD, run
the branch-pointer transition, printing the new-head summary for a quiet-free
successful HARD reset; for any empty pathspec, clear the branch state. -/
def finishRefs (r1 : Repo) (a : Args) (rt : ResetType) (unborn : Bool) (oid : Oid)
    (tr1 : List Ev) : RunResult :=
  if a.pathspec = [] ∧ unborn = false then
    { died := none
      status := (reset_refs (revToString a.rev) oid a.rla r1).1
      repo :=
        if a.pathspec = [] then
          clearBranchState (reset_refs (revToString a.rev) oid a.rla r1).2.1
        else (reset_refs (revToString a.rev) oid a.rla r1).2.1
      output :=
        if rt = ResetType.HARD ∧ (reset_refs (revToString a.rev) oid a.rla r1).1 = 0 ∧
            a.quiet = false then [headLine oid] else []
      trace := tr1 ++ (reset_refs (revToString a.rev) oid a.rla r1).2.2 }
  else
    { died := none
      status := 0
      repo := if a.pathspec = [] then clearBranchState r1 else r1
      output := []
      trace := tr1 }

/-- Lines 283-456, `cmd_reset`: resolve the revision, dispatch patch mode,
validate the mode, reconcile the index, then run the branch-pointer
transition and the branch-state cleanup. -/
def cmd_reset (r : Repo) (a : Args) : RunResult :=
  match resolveTarget r a with
  | .error msg => mkDied r msg
  | .ok (unborn, oid) =>
    if a.patch then
      if a.resetTypeArg ≠ ResetType.NONE then
        mkDied r "--patch is incompatible with --\x7bhard,mixed,soft\x7d"
      else run_add_interactive r
    else
      match validate r a with
      | .error msg => mkDied r msg
      | .ok rt =>
        match indexPhase r rt a oid with
        | .failed msg => mkDied r msg
        | .ret1 => { died := none, status := 1, repo := r, output := [], trace := [] }
        | .soft => finishRefs r a rt unborn oid []
        | .ok idx wt =>
          finishRefs (commitIndexRepo r idx wt) a rt unborn oid
            (if wt then [Ev.writeWorkFiles, Ev.commitIndex] else [Ev.commitIndex])

/-- A reference-store write event: BranchPointer or HistoryMarker. -/
def isRefEv (e : Ev) : Prop :=
  e = Ev.writeOrigHead ∨ e = Ev.deleteOrigHead ∨ e = Ev.writeHead

/-- Well-formedness of a tree: no entry carries a zero mode or the null
address. -/
def TreeWF (t : Tree) : Prop := ∀ e ∈ t, e.2.1 ≠ 0 ∧ e.2.2 ≠ nullOid

/-- Example tree of the commit at HEAD in the example repository. -/
def exTreeA : Tree := [("a", (100, 5))]

/-- Example tree of the target commit in the example repository. -/
def exTreeB : Tree := [("b", (100, 6))]

/-- A small concrete repository: HEAD at commit 11 (tree 21, file "a"),
target commit 12 (tree 22, file "b"), a clean index matching HEAD, and a
leftover in-progress branch-state marker. -/
def exRepo : Repo :=
  { index := [("a", ⟨100, 5, 0, false⟩)]
    workTree := [("a", 5)]
    head := some 11
    origHead := none
    headLog := []
    origHeadLog := []
    commits := [(11, 21), (12, 22)]
    trees := [(21, exTreeA), (22, exTreeB)]
    mergeInProgress := false
    branchState := true
    bare := false
    hasWorkTree := true
    refStoreFails := false }

/-- The example repository with a failing reference store. -/
def exRepoFail : Repo := { exRepo with refStoreFails := true }

/-- Baseline arguments: no explicit mode, no flags, target revision 12. -/
def argsBase : Args :=
  { resetTypeArg := ResetType.NONE, quiet := false, patch := false
    intentToAdd := false, rev := Rev.rid 12, pathspec := [], rla := none }

/-- A plain `reset --hard 12`. -/
def aHard : Args := { argsBase with resetTypeArg := ResetType.HARD }

/-- A quiet `reset --hard -q 12`. -/
def aHardQuiet : Args := { argsBase with resetTypeArg := ResetType.HARD, quiet := true }

/-- A `reset --keep 12`. -/
def aKeep : Args := { argsBase with resetTypeArg := ResetType.KEEP }

/-- A `reset --soft 12`. -/
def aSoft : Args := { argsBase with resetTypeArg := ResetType.SOFT }

/-- A `reset --mixed -N 12`. -/
def aMixedN : Args :=
  { argsBase with resetTypeArg := ResetType.MIXED, intentToAdd := true }

/-- A path-scoped `reset 12 -- b`. -/
def aPaths : Args := { argsBase with pathspec := ["b"] }

/-- An illegal `reset --hard 12 -- b`. -/
def aHardPaths : Args :=
  { argsBase with resetTypeArg := ResetType.HARD, pathspec := ["b"] }

/-- An illegal `reset --patch --hard 12`. -/
def aPatchHard : Args := { argsBase with resetTypeArg := ResetType.HARD, patch := true }

/-!  Association-list lookup lemmas. -/

theorem alookup_eq_none {β : Type} {p : String} {l : List (String × β)}
    (h : p ∉ l.map Prod.fst) : alookup p l = none := by
  induction l with
  | nil => rfl
  | cons e es ih =>
    simp only [List.map_cons, List.mem_cons, not_or] at h
    simp only [alookup, if_neg (fun he : e.1 = p => h.1 he.symm)]
    exact ih h.2

theorem mem_keys_of_alookup {β : Type} {p : String} {l : List (String × β)} {v : β}
    (h : alookup p l = some v) : p ∈ l.map Prod.fst := by
  by_contra hc
  rw [alookup_eq_none hc] at h
  cases h

theorem mem_of_alookup {β : Type} {p : String} {l : List (String × β)} {v : β}
    (h : alookup p l = some v) : (p, v) ∈ l := by
  induction l with
  | nil => cases h
  | cons e es ih =>
    by_cases he : e.1 = p
    · simp only [alookup, if_pos he] at h
      cases h
      have hpe : (p, e.2) = e := by
        cases e
        simp_all
      rw [hpe]
      exact List.mem_cons_self _ _
    · simp only [alookup, if_neg he] at h
      exact List.mem_cons_of_mem _ (ih h)

theorem alookup_append {β : Type} (p : String) (l1 l2 : List (String × β)) :
    alookup p (l1 ++ l2) =
      (match alookup p l1 with
       | some v => some v
       | none => alookup p l2) := by
  induction l1 with
  | nil => rfl
  | cons e es ih =>
    by_cases he : e.1 = p
    · simp [alookup, if_pos he]
    · simp only [List.cons_append, alookup, if_neg he]
      exact ih

theorem alookup_filter_ne_self {β : Type} (p : String) (l : List (String × β)) :
    alookup p (l.filter fun e => decide (e.1 ≠ p)) = none := by
  apply alookup_eq_none
  simp only [List.mem_map, List.mem_filter, decide_eq_true_eq]
  rintro ⟨e, ⟨_, hne⟩, he⟩
  exact hne he

theorem alookup_filter_ne_other {β : Type} {p p0 : String} (h : p ≠ p0)
    (l : List (String × β)) :
    alookup p (l.filter fun e => decide (e.1 ≠ p0)) = alookup p l := by
  induction l with
  | nil => rfl
  | cons e es ih =>
    by_cases he : e.1 = p0
    · rw [List.filter_cons_of_neg (by simp [he]), ih]
      have : e.1 ≠ p := fun hc => h (hc ▸ he)
      simp [alookup, if_neg this]
    · rw [List.filter_cons_of_pos (by simp [he])]
      by_cases hp : e.1 = p
      · simp [alookup, if_pos hp]
      · simp only [alookup, if_neg hp]
        exact ih

theorem alookup_remove_self (p : String) (idx : Index) :
    alookup p (remove_file_from_cache p idx) = none :=
  alookup_filter_ne_self p idx

theorem alookup_remove_ne {p p0 : String} (h : p ≠ p0) (idx : Index) :
    alookup p (remove_file_from_cache p0 idx) = alookup p idx :=
  alookup_filter_ne_other h idx

theorem alookup_add_self (p : String) (ce : CacheEntry) (idx : Index) :
    alookup p (add_cache_entry p ce idx) = some ce := by
  rw [add_cache_entry, alookup_append, alookup_filter_ne_self]
  simp [alookup]

theorem alookup_add_ne {p p0 : String} (h : p ≠ p0) (ce : CacheEntry) (idx : Index) :
    alookup p (add_cache_entry p0 ce idx) = alookup p idx := by
  rw [add_cache_entry, alookup_append, alookup_filter_ne_other h]
  cases hl : alookup p idx with
  | some v => rfl
  | none => simp [alookup, Ne.symm h]

/-!  Lemmas about the diff-apply pass (`update_index_from_diff`). -/

theorem applyDiffEntry_other {p : String} {d : DiffEntry} (h : p ≠ d.path)
    (ita : Bool) (idx : Index) :
    alookup p (applyDiffEntry ita idx d) = alookup p idx := by
  unfold applyDiffEntry
  cases diffResultEntry ita d with
  | none => exact alookup_remove_ne h idx
  | some ce => exact alookup_add_ne h ce idx

theorem applyDiffEntry_self (d : DiffEntry) (ita : Bool) (idx : Index) :
    alookup d.path (applyDiffEntry ita idx d) = diffResultEntry ita d := by
  unfold applyDiffEntry
  cases h : diffResultEntry ita d with
  | none => exact alookup_remove_self d.path idx
  | some ce => exact alookup_add_self d.path ce idx

theorem update_index_not_mem {q : List DiffEntry} {p : String} {ita : Bool}
    {idx : Index} (h : p ∉ q.map DiffEntry.path) :
    alookup p (update_index_from_diff q ita idx) = alookup p idx := by
  induction q generalizing idx with
  | nil => rfl
  | cons d q' ih =>
    simp only [List.map_cons, List.mem_cons, not_or] at h
    show alookup p (update_index_from_diff q' ita (applyDiffEntry ita idx d)) = _
    rw [ih h.2, applyDiffEntry_other h.1]

theorem update_index_mem {q : List DiffEntry} {d : DiffEntry} {ita : Bool}
    {idx : Index} (hnd : (q.map DiffEntry.path).Nodup) (hd : d ∈ q) :
    alookup d.path (update_index_from_diff q ita idx) = diffResultEntry ita d := by
  induction q generalizing idx with
  | nil => cases hd
  | cons e q' ih =>
    simp only [List.map_cons, List.nodup_cons] at hnd
    rcases List.mem_cons.mp hd with he | hd'
    · subst he
      show alookup d.path (update_index_from_diff q' ita (applyDiffEntry ita idx d)) = _
      rw [update_index_not_mem hnd.1, applyDiffEntry_self]
    · exact ih hnd.2 hd'

/-!  Lemmas about the diff records themselves. -/

theorem diff_cache_map_path (t : Tree) (idx : Index) (ps : List String) :
    (diff_cache t idx ps).map DiffEntry.path
      = (diffKeys t idx).filter fun p =>
          psMatch ps p && decide (treeLookup t p ≠ idxVal idx p) := by
  rw [diff_cache, List.map_map]
  exact List.map_id _

theorem diff_cache_nodup (t : Tree) (idx : Index) (ps : List String) :
    ((diff_cache t idx ps).map DiffEntry.path).Nodup := by
  rw [diff_cache_map_path]
  exact (List.nodup_dedup _).filter _

theorem mem_diffKeys {t : Tree} {idx : Index} {p : String} :
    p ∈ diffKeys t idx ↔ p ∈ t.map Prod.fst ∨ p ∈ idx.map Prod.fst := by
  rw [diffKeys, List.mem_dedup, List.mem_append]

theorem mem_diffKeys_of_ne {t : Tree} {idx : Index} {p : String}
    (h : treeLookup t p ≠ idxVal idx p) : p ∈ diffKeys t idx := by
  rw [mem_diffKeys]
  cases htl : treeLookup t p with
  | some v => exact Or.inl (mem_keys_of_alookup htl)
  | none =>
    cases hil : alookup p idx with
    | some c => exact Or.inr (mem_keys_of_alookup hil)
    | none =>
      exfalso
      apply h
      rw [htl, idxVal, hil]
      rfl

/-- The central fact about a MIXED reset over the whole tree: after the
diff-apply pass with intent-to-add off, the index's (mode, address) mapping
is exactly the target tree's. -/
theorem mixed_lookup (t : Tree) (idx : Index) (hwf : TreeWF t) (p : String) :
    idxVal (update_index_from_diff (diff_cache t idx []) false idx) p
      = treeLookup t p := by
  by_cases hp : p ∈ (diff_cache t idx []).map DiffEntry.path
  · have hp0 : p ∈ (diffKeys t idx).filter fun p =>
        psMatch [] p && decide (treeLookup t p ≠ idxVal idx p) := by
      rw [← diff_cache_map_path]
      exact hp
    have hpred := (List.mem_filter.mp hp0).2
    simp only [Bool.and_eq_true, decide_eq_true_eq] at hpred
    have hd : diffEntryAt t p ∈ diff_cache t idx [] :=
      List.mem_map_of_mem (diffEntryAt t) hp0
    have hupd := @update_index_mem (diff_cache t idx []) (diffEntryAt t p) false idx
      (diff_cache_nodup t idx []) hd
    have hupd' : alookup p (update_index_from_diff (diff_cache t idx []) false idx)
        = diffResultEntry false (diffEntryAt t p) := hupd
    show (alookup p (update_index_from_diff (diff_cache t idx []) false idx)).map ceVal
        = treeLookup t p
    rw [hupd']
    cases htl : treeLookup t p with
    | some v =>
      obtain ⟨m, o⟩ := v
      have hwfe := hwf (p, (m, o)) (mem_of_alookup htl)
      simp only [ne_eq] at hwfe
      simp [diffResultEntry, isMissingEntry, diffEntryAt, htl, hwfe.1, hwfe.2,
        mkEntry, ceVal]
    | none =>
      simp [diffResultEntry, isMissingEntry, diffEntryAt, htl, nullOid]
  · rw [idxVal, update_index_not_mem hp]
    by_cases hne : treeLookup t p = idxVal idx p
    · exact hne.symm
    · exfalso
      apply hp
      rw [diff_cache_map_path]
      refine List.mem_filter.mpr ⟨mem_diffKeys_of_ne hne, ?_⟩
      simp [psMatch, hne]

/-!  Lemmas about the one-way (overwrite) merge. -/

theorem alookup_oneway (t : Tree) (p : String) :
    alookup p (oneway_merge_result t)
      = (treeLookup t p).map fun v => mkEntry v.1 v.2 := by
  induction t with
  | nil => rfl
  | cons e es ih =>
    by_cases he : e.1 = p
    · simp [oneway_merge_result, alookup, treeLookup, if_pos he]
    · simp only [oneway_merge_result, List.map_cons, alookup, if_neg he]
      simpa [oneway_merge_result, treeLookup, alookup, if_neg he] using ih

theorem idxVal_oneway (t : Tree) (p : String) :
    idxVal (oneway_merge_result t) p = treeLookup t p := by
  rw [idxVal, alookup_oneway]
  cases treeLookup t p with
  | none => rfl
  | some v => rfl

/-!  Lemmas about the two-way merge used by KEEP. -/

theorem twoway_fold_keys {ht t : Tree} {i : Index} {l : List String} {idx' : Index}
    {p : String} (hres : twoway_fold ht t i l = some idx') (hp : p ∉ l) :
    alookup p idx' = none := by
  induction l generalizing idx' with
  | nil =>
    cases hres
    rfl
  | cons p' l' ih =>
    simp only [List.mem_cons, not_or] at hp
    rw [twoway_fold] at hres
    cases hacc : twoway_fold ht t i l' with
    | none => rw [hacc] at hres; cases hres
    | some rest =>
      rw [hacc] at hres
      cases htw : twoway_path (treeLookup ht p') (treeLookup t p') (alookup p' i) with
      | none => rw [twoway_step, htw] at hres; cases hres
      | some v =>
        cases v with
        | none =>
          rw [twoway_step, htw] at hres
          cases hres
          exact ih hacc hp.2
        | some ce =>
          rw [twoway_step, htw] at hres
          cases hres
          simp only [alookup, if_neg (fun hc : p' = p => hp.1 hc.symm)]
          exact ih hacc hp.2

theorem twoway_fold_mem {ht t : Tree} {i : Index} {l : List String} {idx' : Index}
    {p : String} (hnd : l.Nodup) (hp : p ∈ l)
    (hres : twoway_fold ht t i l = some idx') :
    twoway_path (treeLookup ht p) (treeLookup t p) (alookup p i)
      = some (alookup p idx') := by
  induction l generalizing idx' with
  | nil => cases hp
  | cons p' l' ih =>
    obtain ⟨hnp, hnd'⟩ := List.nodup_cons.mp hnd
    rw [twoway_fold] at hres
    cases hacc : twoway_fold ht t i l' with
    | none => rw [hacc] at hres; cases hres
    | some rest =>
      rw [hacc] at hres
      cases htw : twoway_path (treeLookup ht p') (treeLookup t p') (alookup p' i) with
      | none => rw [twoway_step, htw] at hres; cases hres
      | some v =>
        rcases List.mem_cons.mp hp with he | hp'
        · subst he
          cases v with
          | none =>
            rw [twoway_step, htw] at hres
            cases hres
            rw [htw, twoway_fold_keys hacc hnp]
          | some ce =>
            rw [twoway_step, htw] at hres
            cases hres
            rw [htw]
            simp [alookup]
        · have hne : p' ≠ p := fun hc => hnp (hc ▸ hp')
          cases v with
          | none =>
            rw [twoway_step, htw] at hres
            cases hres
            exact ih hnd' hp' hacc
          | some ce =>
            rw [twoway_step, htw] at hres
            cases hres
            simp only [alookup, if_neg hne]
            exact ih hnd' hp' hacc

theorem twoway_fold_conflict {ht t : Tree} {i : Index} {l : List String} {p : String}
    (hp : p ∈ l)
    (htw : twoway_path (treeLookup ht p) (treeLookup t p) (alookup p i) = none) :
    twoway_fold ht t i l = none := by
  induction l with
  | nil => cases hp
  | cons p' l' ih =>
    rw [twoway_fold]
    rcases List.mem_cons.mp hp with he | hp'
    · subst he
      cases hacc : twoway_fold ht t i l' with
      | none => rfl
      | some rest => rw [twoway_step, htw]
    · rw [ih hp']
      rfl

theorem mem_pathsOf3 {ht t : Tree} {i : Index} {p : String} :
    p ∈ pathsOf3 ht t i ↔
      p ∈ ht.map Prod.fst ∨ p ∈ t.map Prod.fst ∨ p ∈ i.map Prod.fst := by
  rw [pathsOf3, List.mem_dedup, List.mem_append, List.mem_append, or_assoc]

theorem mem_pathsOf3_of_disagree {ht t : Tree} {i : Index} {p : String}
    (h : treeLookup ht p ≠ treeLookup t p) : p ∈ pathsOf3 ht t i := by
  rw [mem_pathsOf3]
  cases hh : treeLookup ht p with
  | some v => exact Or.inl (mem_keys_of_alookup hh)
  | none =>
    cases htp : treeLookup t p with
    | some v => exact Or.inr (Or.inl (mem_keys_of_alookup htp))
    | none =>
      exfalso
      apply h
      rw [hh, htp]

/-- Per-path result of the KEEP merge when the current tip and the target
agree: the index entry is kept unmodified. -/
theorem twoway_agree {ht t : Tree} {i : Index} {idx' : Index} {p : String}
    (hag : treeLookup ht p = treeLookup t p)
    (hres : twoway_merge_result ht t i = some idx') :
    alookup p idx' = alookup p i := by
  by_cases hp : p ∈ pathsOf3 ht t i
  · have := twoway_fold_mem (List.nodup_dedup _) hp hres
    rw [twoway_path, if_pos hag] at this
    exact (Option.some.inj this).symm
  · rw [twoway_fold_keys hres hp]
    have hpi : p ∉ i.map Prod.fst := fun hc =>
      hp (mem_pathsOf3.mpr (Or.inr (Or.inr hc)))
    rw [alookup_eq_none hpi]

/-- Per-path result of the KEEP merge when the trees disagree and the index
carries no conflicting local change: the entry is set to the target's value. -/
theorem twoway_update {ht t : Tree} {i : Index} {idx' : Index} {p : String}
    (hdis : treeLookup ht p ≠ treeLookup t p)
    (hloc : (alookup p i).map ceVal = treeLookup ht p)
    (hres : twoway_merge_result ht t i = some idx') :
    idxVal idx' p = treeLookup t p := by
  have hp : p ∈ pathsOf3 ht t i := mem_pathsOf3_of_disagree hdis
  have htw := twoway_fold_mem (List.nodup_dedup _) hp hres
  rw [twoway_path, if_neg hdis, if_neg (fun hc => hc hloc)] at htw
  rw [idxVal, ← Option.some.inj htw]
  cases treeLookup t p with
  | none => rfl
  | some v => rfl

/-- Per-path result of the KEEP merge when the trees disagree and the index
carries a conflicting local change: the whole merge fails. -/
theorem twoway_conflict {ht t : Tree} {i : Index} {p : String}
    (hdis : treeLookup ht p ≠ treeLookup t p)
    (hloc : (alookup p i).map ceVal ≠ treeLookup ht p) :
    twoway_merge_result ht t i = none := by
  have hp : p ∈ pathsOf3 ht t i := mem_pathsOf3_of_disagree hdis
  apply twoway_fold_conflict hp
  rw [twoway_path, if_neg hdis, if_pos hloc]

/-!  Lemmas about the orchestration helpers of `cmd_reset`. -/

theorem validate_ok {r : Repo} {a : Args} {rt : ResetType}
    (h : validate r a = .ok rt) : rt = effType a := by
  unfold validate at h
  split at h
  · simp_all
  · split at h
    · simp_all
    · split at h
      · simp_all
      · split at h
        · simp_all
        · split at h
          · simp_all
          · simp_all

theorem effType_ne_none (a : Args) : effType a ≠ ResetType.NONE := by
  unfold effType
  split_ifs with h
  · decide
  · exact h

theorem reset_refs_frame (rev : String) (oid : Oid) (rla : Option String) (r : Repo) :
    (reset_refs rev oid rla r).2.1.index = r.index ∧
    (reset_refs rev oid rla r).2.1.workTree = r.workTree ∧
    (reset_refs rev oid rla r).2.1.commits = r.commits ∧
    (reset_refs rev oid rla r).2.1.trees = r.trees ∧
    (reset_refs rev oid rla r).2.1.mergeInProgress = r.mergeInProgress ∧
    (reset_refs rev oid rla r).2.1.branchState = r.branchState ∧
    (reset_refs rev oid rla r).2.1.bare = r.bare ∧
    (reset_refs rev oid rla r).2.1.hasWorkTree = r.hasWorkTree ∧
    (reset_refs rev oid rla r).2.1.refStoreFails = r.refStoreFails := by
  cases hh : r.head <;> cases ho : r.origHead <;>
    simp only [reset_refs, hh, ho] <;> split_ifs <;> simp

theorem reset_refs_events (rev : String) (oid : Oid) (rla : Option String) (r : Repo) :
    ∀ e ∈ (reset_refs rev oid rla r).2.2, isRefEv e := by
  cases hh : r.head <;> cases ho : r.origHead <;>
    simp only [reset_refs, hh, ho] <;> split_ifs <;>
      intro e he <;> simp_all [isRefEv] <;> tauto

theorem reset_refs_fail (rev : String) (oid : Oid) (rla : Option String) (r : Repo)
    (h : r.refStoreFails = true) : reset_refs rev oid rla r = (1, r, []) := by
  cases hh : r.head <;> cases ho : r.origHead <;>
    simp [reset_refs, hh, ho, ref_cas_ok, h]

theorem finishRefs_died (r1 : Repo) (a : Args) (rt : ResetType) (ub : Bool)
    (oid : Oid) (tr1 : List Ev) : (finishRefs r1 a rt ub oid tr1).died = none := by
  unfold finishRefs
  split_ifs <;> rfl

theorem finishRefs_frame (r1 : Repo) (a : Args) (rt : ResetType) (ub : Bool)
    (oid : Oid) (tr1 : List Ev) :
    (finishRefs r1 a rt ub oid tr1).repo.index = r1.index ∧
    (finishRefs r1 a rt ub oid tr1).repo.workTree = r1.workTree ∧
    (finishRefs r1 a rt ub oid tr1).repo.commits = r1.commits ∧
    (finishRefs r1 a rt ub oid tr1).repo.trees = r1.trees ∧
    (finishRefs r1 a rt ub oid tr1).repo.bare = r1.bare ∧
    (finishRefs r1 a rt ub oid tr1).repo.hasWorkTree = r1.hasWorkTree ∧
    (finishRefs r1 a rt ub oid tr1).repo.refStoreFails = r1.refStoreFails := by
  have hf := reset_refs_frame (revToString a.rev) oid a.rla r1
  unfold finishRefs
  split_ifs <;> simp_all [clearBranchState]

theorem finishRefs_nonempty {a : Args} (r1 : Repo) (rt : ResetType) (ub : Bool)
    (oid : Oid) (tr1 : List Ev) (h : a.pathspec ≠ []) :
    finishRefs r1 a rt ub oid tr1 =
      { died := none, status := 0, repo := r1, output := [], trace := tr1 } := by
  unfold finishRefs
  rw [if_neg (fun hc => h hc.1), if_neg h]

theorem commitIndexRepo_fields (r : Repo) (idx : Index) (wt : Bool) :
    (commitIndexRepo r idx wt).index = idx ∧
    (commitIndexRepo r idx wt).head = r.head ∧
    (commitIndexRepo r idx wt).origHead = r.origHead ∧
    (commitIndexRepo r idx wt).headLog = r.headLog ∧
    (commitIndexRepo r idx wt).origHeadLog = r.origHeadLog ∧
    (commitIndexRepo r idx wt).commits = r.commits ∧
    (commitIndexRepo r idx wt).trees = r.trees ∧
    (commitIndexRepo r idx wt).mergeInProgress = r.mergeInProgress ∧
    (commitIndexRepo r idx wt).branchState = r.branchState ∧
    (commitIndexRepo r idx wt).bare = r.bare ∧
    (commitIndexRepo r idx wt).hasWorkTree = r.hasWorkTree ∧
    (commitIndexRepo r idx wt).refStoreFails = r.refStoreFails := by
  unfold commitIndexRepo
  split_ifs <;> simp

/-- In a trace made of a commit-phase part (index and working-file events
only) followed by reference events, no reference event precedes a
`commitIndex` event. -/
theorem no_ref_before_commit {pre evs l1 l2 : List Ev}
    (hpre : ∀ e ∈ pre, e = Ev.commitIndex ∨ e = Ev.writeWorkFiles)
    (hevs : Ev.commitIndex ∉ evs)
    (heq : pre ++ evs = l1 ++ Ev.commitIndex :: l2) :
    ∀ e ∈ l1, e = Ev.commitIndex ∨ e = Ev.writeWorkFiles := by
  induction pre generalizing l1 with
  | nil =>
    exfalso
    apply hevs
    rw [List.nil_append] at heq
    rw [heq]
    exact List.mem_append_right _ (List.mem_cons_self _ _)
  | cons x pre' ih =>
    cases l1 with
    | nil => intro e he; cases he
    | cons y l1' =>
      rw [List.cons_append, List.cons_append] at heq
      obtain ⟨hxy, htl⟩ := List.cons.inj heq
      intro e he
      rcases List.mem_cons.mp he with he' | he'
      · subst he'
        rw [← hxy]
        exact hpre x (List.mem_cons_self _ _)
      · exact ih (fun e' he'' => hpre e' (List.mem_cons_of_mem _ he'')) htl e he'

theorem resolveTarget_unborn {r : Repo} {a : Args} {ub : Bool} {oid : Oid}
    (h : resolveTarget r a = .ok (ub, oid)) : ub = unbornOf r a := by
  unfold resolveTarget at h
  split at h
  · next hu =>
    cases h
    simp_all
  · next hu =>
    have hu' : unbornOf r a = false := by
      cases hb : unbornOf r a
      · rfl
      · exact absurd hb hu
    rw [hu']
    split at h <;> repeat first
      | rfl
      | (cases h)
      | (split at h)

theorem validate_ok_paths {r : Repo} {a : Args} {rt : ResetType}
    (h : validate r a = .ok rt) (hps : a.pathspec ≠ []) : rt = ResetType.MIXED := by
  have he := validate_ok h
  unfold validate at h
  split at h
  · cases h
  · next hc =>
    push_neg at hc
    rw [he]
    unfold effType
    rcases Decidable.em (a.resetTypeArg = ResetType.NONE) with hn | hn
    · rw [if_pos hn]
    · rw [if_neg hn]
      rcases Decidable.em (a.resetTypeArg = ResetType.MIXED) with hm | hm
      · exact hm
      · exact absurd (hc hps hm) hn

theorem validate_mixed_ok {r : Repo} {a : Args} (hrt : effType a = ResetType.MIXED)
    (hps : a.pathspec = []) (hbare : r.bare = false) :
    validate r a = .ok ResetType.MIXED := by
  unfold validate
  rw [if_neg (fun hc => hc.1 hps)]
  rw [if_neg (by
    rw [hrt]
    rintro ⟨h1, h2, h3⟩
    rcases h2 with h2 | h2
    · exact h2 rfl
    · exact h3 h2)]
  rw [if_neg (by rw [hbare]; rintro ⟨h1, h2⟩; cases h2)]
  rw [if_neg (fun hc => hc.2 hrt)]
  rw [if_neg (by rw [hrt]; rintro ⟨h1, h2⟩; rcases h1 with h1 | h1 <;> cases h1)]
  rw [hrt]

theorem indexPhase_soft (r : Repo) (a : Args) (oid : Oid) :
    indexPhase r ResetType.SOFT a oid = .soft := by
  unfold indexPhase
  rw [if_pos rfl]

theorem indexPhase_mixed {r : Repo} {oid : Oid} {t : Tree} (a : Args)
    (hlt : load_tree r oid = some t) :
    indexPhase r ResetType.MIXED a oid =
      .ok (update_index_from_diff (diff_cache t r.index a.pathspec)
            a.intentToAdd r.index) false := by
  unfold indexPhase
  rw [if_neg (by decide), if_pos rfl]
  unfold read_from_tree
  rw [hlt]

theorem indexPhase_oneway {r : Repo} {oid : Oid} {t : Tree} (a : Args)
    (rt : ResetType) (h1 : rt ≠ ResetType.SOFT) (h2 : rt ≠ ResetType.MIXED)
    (h3 : rt ≠ ResetType.KEEP) (hlt : load_tree r oid = some t) :
    indexPhase r rt a oid = .ok (oneway_merge_result t) true := by
  have hri : reset_index r r.index oid rt = .ok (oneway_merge_result t) := by
    unfold reset_index
    rw [if_neg h3, hlt]
  unfold indexPhase
  rw [if_neg h1, if_neg h2, hri]
  simp [h3]

theorem indexPhase_keep {r : Repo} {oid h : Oid} {ht t : Tree} {idx1 : Index}
    (a : Args) (hh : r.head = some h) (hht : load_tree r h = some ht)
    (hlt : load_tree r oid = some t)
    (htw : twoway_merge_result ht t r.index = some idx1) :
    indexPhase r ResetType.KEEP a oid = .ok (oneway_merge_result t) true := by
  have hri : reset_index r r.index oid ResetType.KEEP = .ok idx1 := by
    simp [reset_index, hh, hht, hlt, htw]
  have hri2 : reset_index r idx1 oid ResetType.MIXED = .ok (oneway_merge_result t) := by
    unfold reset_index
    rw [if_neg (by decide), hlt]
  unfold indexPhase
  rw [if_neg (by decide), if_neg (by decide), hri]
  simp [hri2]

theorem indexPhase_keep_conflict {r : Repo} {oid h : Oid} {ht t : Tree}
    (a : Args) (hh : r.head = some h) (hht : load_tree r h = some ht)
    (hlt : load_tree r oid = some t)
    (htw : twoway_merge_result ht t r.index = none) :
    indexPhase r ResetType.KEEP a oid =
      .failed ("Could not reset index file to revision '" ++ revToString a.rev ++ "'.") := by
  have hri : reset_index r r.index oid ResetType.KEEP = .error "unpack_trees failed" := by
    simp [reset_index, hh, hht, hlt, htw]
  unfold indexPhase
  rw [if_neg (by decide), if_neg (by decide), hri]

theorem finishRefs_refs_case (r1 : Repo) (a : Args) (rt : ResetType) (ub : Bool)
    (oid : Oid) (tr1 : List Ev) (hps : a.pathspec = []) (hub : ub = false) :
    finishRefs r1 a rt ub oid tr1 =
      { died := none
        status := (reset_refs (revToString a.rev) oid a.rla r1).1
        repo := clearBranchState (reset_refs (revToString a.rev) oid a.rla r1).2.1
        output :=
          if rt = ResetType.HARD ∧ (reset_refs (revToString a.rev) oid a.rla r1).1 = 0 ∧
              a.quiet = false then [headLine oid] else []
        trace := tr1 ++ (reset_refs (revToString a.rev) oid a.rla r1).2.2 } := by
  unfold finishRefs
  rw [if_pos ⟨hps, hub⟩, if_pos hps]

theorem finishRefs_skip_case (r1 : Repo) (a : Args) (rt : ResetType) (ub : Bool)
    (oid : Oid) (tr1 : List Ev) (h : ¬ (a.pathspec = [] ∧ ub = false)) :
    finishRefs r1 a rt ub oid tr1 =
      { died := none
        status := 0
        repo := if a.pathspec = [] then clearBranchState r1 else r1
        output := []
        trace := tr1 } := by
  unfold finishRefs
  rw [if_neg h]

/-!  Claim theorems. -/

/-- C7: in a MIXED reset over the whole tree with the intent-to-add flag
set, every path absent from the target tree but present in the index becomes
a zero-content index entry with the intent-to-add flag set rather than being
removed from the index. -/
theorem c7_intent_to_add_placeholder (r : Repo) (a : Args) (ub : Bool)
    (oid : Oid) (t : Tree) (p : String) (ce : CacheEntry)
    (hrt : effType a = ResetType.MIXED) (hita : a.intentToAdd = true)
    (hps : a.pathspec = []) (hpatch : a.patch = false) (hbare : r.bare = false)
    (hres : resolveTarget r a = .ok (ub, oid)) (hlt : load_tree r oid = some t)
    (habs : treeLookup t p = none) (hpres : alookup p r.index = some ce) :
    (alookup p (cmd_reset r a).repo.index).map (fun c => (c.oid, c.intentToAdd))
      = some (emptyBlobOid, true) := by
  have hval := validate_mixed_ok hrt hps hbare
  have hip := indexPhase_mixed a hlt
  have hcmd : cmd_reset r a = finishRefs (commitIndexRepo r
      (update_index_from_diff (diff_cache t r.index a.pathspec)
        a.intentToAdd r.index) false) a ResetType.MIXED ub oid [Ev.commitIndex] := by
    simp [cmd_reset, hres, hpatch, hval, hip]
  rw [hcmd, (finishRefs_frame _ a ResetType.MIXED ub oid _).1,
    (commitIndexRepo_fields _ _ _).1, hps, hita]
  have hneq : treeLookup t p ≠ idxVal r.index p := by
    rw [habs, idxVal, hpres]
    simp
  have hp0 : p ∈ (diffKeys t r.index).filter fun q =>
      psMatch [] q && decide (treeLookup t q ≠ idxVal r.index q) := by
    refine List.mem_filter.mpr ⟨mem_diffKeys_of_ne hneq, ?_⟩
    simp [psMatch, hneq]
  have hd : diffEntryAt t p ∈ diff_cache t r.index [] :=
    List.mem_map_of_mem (diffEntryAt t) hp0
  have hupd := @update_index_mem (diff_cache t r.index []) (diffEntryAt t p) true
    r.index (diff_cache_nodup t r.index []) hd
  have hupd' : alookup p (update_index_from_diff (diff_cache t r.index []) true r.index)
      = diffResultEntry true (diffEntryAt t p) := hupd
  rw [hupd']
  have hde : diffEntryAt t p = ⟨p, 0, 0⟩ := by
    unfold diffEntryAt
    rw [habs]
    rfl
  rw [hde]
  rfl

/-- C7 witness: the MIXED intent-to-add reset on the example repository
turns the deleted path "a" into a zero-content intent-to-add entry. -/
theorem c7_witness :
    (alookup "a" (cmd_reset exRepo aMixedN).repo.index).map
        (fun c => (c.oid, c.intentToAdd)) = some (emptyBlobOid, true) :=
  c7_intent_to_add_placeholder exRepo aMixedN false 12 exTreeB "a"
    ⟨100, 5, 0, false⟩ rfl rfl rfl rfl rfl rfl rfl rfl rfl

theorem finishRefs_markers_output (r1 : Repo) (a : Args) (rt : ResetType)
    (ub : Bool) (oid : Oid) (tr1 : List Ev) :
    (a.pathspec = [] →
       (finishRefs r1 a rt ub oid tr1).repo.mergeInProgress = false ∧
       (finishRefs r1 a rt ub oid tr1).repo.branchState = false) ∧
    (a.pathspec ≠ [] →
       (finishRefs r1 a rt ub oid tr1).repo.mergeInProgress = r1.mergeInProgress ∧
       (finishRefs r1 a rt ub oid tr1).repo.branchState = r1.branchState) ∧
    ((finishRefs r1 a rt ub oid tr1).output ≠ [] ↔
       (rt = ResetType.HARD ∧ a.pathspec = [] ∧ ub = false ∧
        (finishRefs r1 a rt ub oid tr1).status = 0 ∧ a.quiet = false)) := by
  by_cases hc : a.pathspec = [] ∧ ub = false
  · rw [finishRefs_refs_case r1 a rt ub oid tr1 hc.1 hc.2]
    refine ⟨fun _ => ⟨by simp [clearBranchState], by simp [clearBranchState]⟩,
      fun hn => absurd hc.1 hn, ?_⟩
    split_ifs with hcnd
    · exact iff_of_true (by simp) ⟨hcnd.1, hc.1, hc.2, hcnd.2.1, hcnd.2.2⟩
    · refine iff_of_false (by simp) ?_
      rintro ⟨h1, _, _, h4, h5⟩
      exact hcnd ⟨h1, h4, h5⟩
  · rw [finishRefs_skip_case r1 a rt ub oid tr1 hc]
    by_cases hps : a.pathspec = []
    · rw [if_pos hps]
      refine ⟨fun _ => ⟨by simp [clearBranchState], by simp [clearBranchState]⟩,
        fun hn => absurd hps hn, ?_⟩
      refine iff_of_false (by simp) ?_
      rintro ⟨_, _, hub, _, _⟩
      exact hc ⟨hps, hub⟩
    · rw [if_neg hps]
      refine ⟨fun h => absurd h hps, fun _ => ⟨rfl, rfl⟩, ?_⟩
      refine iff_of_false (by simp) ?_
      rintro ⟨_, hps', _, _, _⟩
      exact hps hps'

/-- C9 counterexample: a quiet successful HARD reset with an empty PathSpec
emits no summary of the new branch tip, so the claimed HARD-mode summary is
not emitted on every successful no-pathspec reset. -/
theorem c9_counterexample :
    (cmd_reset exRepo aHardQuiet).died = none ∧
      (cmd_reset exRepo aHardQuiet).status = 0 ∧
      (cmd_reset exRepo aHardQuiet).output = [] := by
  refine ⟨?_, ?_, ?_⟩ <;> rfl

/-- C9 (amended): when the command completes without dying and the index
phase did not bail out with the status-1 early return, the in-progress
merge/cherry-pick/bisect markers are cleared exactly when the PathSpec is
empty (even if the branch-pointer step failed), and the human-readable
summary of the new branch tip is emitted exactly when the mode is HARD, the
PathSpec is empty, the target is not the unborn case, the branch-pointer
update succeeded, and quiet is not set. -/
theorem c9_markers_and_summary (r : Repo) (a : Args) (ub : Bool) (oid : Oid)
    (hpatch : a.patch = false)
    (hres : resolveTarget r a = .ok (ub, oid))
    (hok : (cmd_reset r a).died = none)
    (hnr : indexPhase r (effType a) a oid ≠ IdxRes.ret1) :
    (a.pathspec = [] → (cmd_reset r a).repo.mergeInProgress = false ∧
        (cmd_reset r a).repo.branchState = false) ∧
    (a.pathspec ≠ [] → (cmd_reset r a).repo.mergeInProgress = r.mergeInProgress ∧
        (cmd_reset r a).repo.branchState = r.branchState) ∧
    ((cmd_reset r a).output ≠ [] ↔
      (effType a = ResetType.HARD ∧ a.pathspec = [] ∧ ub = false ∧
       (cmd_reset r a).status = 0 ∧ a.quiet = false)) := by
  cases hval : validate r a with
  | error msg => simp [cmd_reset, hres, hpatch, hval, mkDied] at hok
  | ok rt =>
    have hrt := validate_ok hval
    subst hrt
    cases hip : indexPhase r (effType a) a oid with
    | failed msg => simp [cmd_reset, hres, hpatch, hval, hip, mkDied] at hok
    | ret1 => exact absurd hip hnr
    | soft =>
      have hcmd : cmd_reset r a = finishRefs r a (effType a) ub oid [] := by
        simp [cmd_reset, hres, hpatch, hval, hip]
      rw [hcmd]
      exact finishRefs_markers_output r a (effType a) ub oid []
    | ok idx wt =>
      have hcmd : cmd_reset r a = finishRefs (commitIndexRepo r idx wt) a
          (effType a) ub oid
          (if wt then [Ev.writeWorkFiles, Ev.commitIndex] else [Ev.commitIndex]) := by
        simp [cmd_reset, hres, hpatch, hval, hip]
      rw [hcmd]
      have h := finishRefs_markers_output (commitIndexRepo r idx wt) a (effType a)
        ub oid (if wt then [Ev.writeWorkFiles, Ev.commitIndex] else [Ev.commitIndex])
      have hfm := (commitIndexRepo_fields r idx wt).2.2.2.2.2.2.2.1
      have hfb := (commitIndexRepo_fields r idx wt).2.2.2.2.2.2.2.2.1
      refine ⟨h.1, fun hn => ?_, h.2.2⟩
      obtain ⟨h1, h2⟩ := h.2.1 hn
      exact ⟨by rw [h1, hfm], by rw [h2, hfb]⟩

/-- C9 witness: the SOFT reset on the example repository completes, clears
the in-progress markers, and emits no summary. -/
theorem c9_witness :
    (cmd_reset exRepo aSoft).repo.mergeInProgress = false ∧
      (cmd_reset exRepo aSoft).repo.branchState = false ∧
      (cmd_reset exRepo aSoft).output = [] := by
  have h := c9_markers_and_summary exRepo aSoft false 12 rfl rfl rfl (by decide)
  obtain ⟨hm, hb⟩ := h.1 rfl
  refine ⟨hm, hb, ?_⟩
  rcases hout : (cmd_reset exRepo aSoft).output with _ | ⟨x, xs⟩
  · rfl
  · exfalso
    have := (h.2.2).mp (by rw [hout]; simp)
    exact absurd this.1 (by decide)

/-- C1 counterexample: a successful MIXED reset with an empty PathSpec but
with the intent-to-add flag set leaves a placeholder entry at a path absent
from the target tree, so the index mapping does not equal the target tree's
entries. -/
theorem c1_counterexample :
    (cmd_reset exRepo aMixedN).died = none ∧
      load_tree exRepo 12 = some exTreeB ∧
      idxVal (cmd_reset exRepo aMixedN).repo.index "a" ≠ treeLookup exTreeB "a" := by
  refine ⟨rfl, rfl, ?_⟩
  decide

/-- C1 (amended): for every reset mode in MIXED/HARD/MERGE/KEEP, after a
successful reset invoked with an empty PathSpec and without the
intent-to-add flag, the staged index's mapping from path to (mode,
content-address) equals exactly the target tree's entries. -/
theorem c1_index_equals_target (r : Repo) (a : Args) (ub : Bool) (oid : Oid)
    (t : Tree) (p : String)
    (hps : a.pathspec = []) (hita : a.intentToAdd = false)
    (hpatch : a.patch = false)
    (hmode : effType a = ResetType.MIXED ∨ effType a = ResetType.HARD ∨
      effType a = ResetType.MERGE ∨ effType a = ResetType.KEEP)
    (hres : resolveTarget r a = .ok (ub, oid)) (hlt : load_tree r oid = some t)
    (hwf : TreeWF t) (hok : (cmd_reset r a).died = none) :
    idxVal (cmd_reset r a).repo.index p = treeLookup t p := by
  cases hval : validate r a with
  | error msg => simp [cmd_reset, hres, hpatch, hval, mkDied] at hok
  | ok rt =>
    have hrt := validate_ok hval
    subst hrt
    rcases hmode with hm | hm | hm | hm
    · rw [hm] at hval
      have hip := indexPhase_mixed a hlt
      have hcmd : cmd_reset r a = finishRefs (commitIndexRepo r
          (update_index_from_diff (diff_cache t r.index a.pathspec)
            a.intentToAdd r.index) false) a ResetType.MIXED ub oid
          [Ev.commitIndex] := by
        simp [cmd_reset, hres, hpatch, hm, hval, hip]
      rw [hcmd, (finishRefs_frame _ a ResetType.MIXED ub oid _).1,
        (commitIndexRepo_fields _ _ _).1, hps, hita]
      exact mixed_lookup t r.index hwf p
    · rw [hm] at hval
      have hip := indexPhase_oneway a ResetType.HARD (by decide) (by decide)
        (by decide) hlt
      have hcmd : cmd_reset r a = finishRefs (commitIndexRepo r
          (oneway_merge_result t) true) a ResetType.HARD ub oid
          [Ev.writeWorkFiles, Ev.commitIndex] := by
        simp [cmd_reset, hres, hpatch, hm, hval, hip]
      rw [hcmd, (finishRefs_frame _ a ResetType.HARD ub oid _).1,
        (commitIndexRepo_fields _ _ _).1]
      exact idxVal_oneway t p
    · rw [hm] at hval
      have hip := indexPhase_oneway a ResetType.MERGE (by decide) (by decide)
        (by decide) hlt
      have hcmd : cmd_reset r a = finishRefs (commitIndexRepo r
          (oneway_merge_result t) true) a ResetType.MERGE ub oid
          [Ev.writeWorkFiles, Ev.commitIndex] := by
        simp [cmd_reset, hres, hpatch, hm, hval, hip]
      rw [hcmd, (finishRefs_frame _ a ResetType.MERGE ub oid _).1,
        (commitIndexRepo_fields _ _ _).1]
      exact idxVal_oneway t p
    · rw [hm] at hval
      cases hh : r.head with
      | none =>
        have hip : indexPhase r ResetType.KEEP a oid = .failed
            ("Could not reset index file to revision '" ++ revToString a.rev ++ "'.") := by
          simp [indexPhase, reset_index, hh]
        simp [cmd_reset, hres, hpatch, hm, hval, hip, mkDied] at hok
      | some h =>
        cases hht : load_tree r h with
        | none =>
          have hip : indexPhase r ResetType.KEEP a oid = .failed
              ("Could not reset index file to revision '" ++ revToString a.rev ++ "'.") := by
            simp [indexPhase, reset_index, hh, hht]
          simp [cmd_reset, hres, hpatch, hm, hval, hip, mkDied] at hok
        | some ht =>
          cases htw : twoway_merge_result ht t r.index with
          | none =>
            have hip := indexPhase_keep_conflict a hh hht hlt htw
            simp [cmd_reset, hres, hpatch, hm, hval, hip, mkDied] at hok
          | some idx1 =>
            have hip := indexPhase_keep a hh hht hlt htw
            have hcmd : cmd_reset r a = finishRefs (commitIndexRepo r
                (oneway_merge_result t) true) a ResetType.KEEP ub oid
                [Ev.writeWorkFiles, Ev.commitIndex] := by
              simp [cmd_reset, hres, hpatch, hm, hval, hip]
            rw [hcmd, (finishRefs_frame _ a ResetType.KEEP ub oid _).1,
              (commitIndexRepo_fields _ _ _).1]
            exact idxVal_oneway t p

/-- C1 witness: after the successful HARD reset on the example repository,
the index at path "b" carries exactly the target tree's (mode, address). -/
theorem c1_witness :
    idxVal (cmd_reset exRepo aHard).repo.index "b" = treeLookup exTreeB "b" :=
  c1_index_equals_target exRepo aHard false 12 exTreeB "b" rfl rfl rfl
    (Or.inr (Or.inl rfl)) rfl rfl
    (by
      intro e he
      simp only [exTreeB, List.mem_singleton] at he
      subst he
      exact ⟨by decide, by decide⟩)
    rfl

/-- C2: in KEEP mode the index reconciliation is the two-way merge of the
current branch tip's tree against the target's tree: per path, if the
current tip and the target agree, the index entry is kept unmodified; if
they disagree and the index carries a conflicting local change, the whole
operation fails before anything is written; otherwise the index entry is
set to the target's value. -/
theorem c2_keep_two_way_merge (r : Repo) (a : Args) (ub : Bool) (oid h : Oid)
    (ht t : Tree)
    (hrt : effType a = ResetType.KEEP) (hps : a.pathspec = [])
    (hpatch : a.patch = false)
    (hres : resolveTarget r a = .ok (ub, oid)) (hh : r.head = some h)
    (hht : load_tree r h = some ht) (hlt : load_tree r oid = some t) :
    (∀ p idx', twoway_merge_result ht t r.index = some idx' →
       (treeLookup ht p = treeLookup t p → alookup p idx' = alookup p r.index) ∧
       (treeLookup ht p ≠ treeLookup t p →
        (alookup p r.index).map ceVal = treeLookup ht p →
          idxVal idx' p = treeLookup t p)) ∧
    (∀ p, treeLookup ht p ≠ treeLookup t p →
       (alookup p r.index).map ceVal ≠ treeLookup ht p →
         twoway_merge_result ht t r.index = none) ∧
    (twoway_merge_result ht t r.index = none →
       ((cmd_reset r a).died).isSome ∧ (cmd_reset r a).repo = r) := by
  refine ⟨?_, ?_, ?_⟩
  · intro p idx' hsome
    exact ⟨fun hag => twoway_agree hag hsome,
      fun hdis hloc => twoway_update hdis hloc hsome⟩
  · intro p hdis hloc
    exact twoway_conflict hdis hloc
  · intro htw
    cases hval : validate r a with
    | error msg =>
      constructor <;> simp [cmd_reset, hres, hpatch, hval, mkDied]
    | ok rt =>
      have hrt' := validate_ok hval
      subst hrt'
      rw [hrt] at hval
      have hip := indexPhase_keep_conflict a hh hht hlt htw
      constructor <;> simp [cmd_reset, hres, hpatch, hrt, hval, hip, mkDied]

/-- C2 witness: in the example repository's KEEP reset, the path "b"
(absent at the tip, present in the target, no local change) is set to the
target's value by the two-way merge. -/
theorem c2_witness :
    idxVal [("b", CacheEntry.mk 100 6 0 false)] "b" = treeLookup exTreeB "b" := by
  have h := c2_keep_two_way_merge exRepo aKeep false 12 11 exTreeA exTreeB
    rfl rfl rfl rfl rfl rfl rfl
  exact (h.1 "b" [("b", CacheEntry.mk 100 6 0 false)] rfl).2 (by decide) rfl

theorem finishRefs_trace_good (r1 : Repo) (a : Args) (rt : ResetType) (ub : Bool)
    (oid : Oid) (tr1 : List Ev)
    (hpre : ∀ e ∈ tr1, e = Ev.commitIndex ∨ e = Ev.writeWorkFiles) :
    ∀ l1 l2, (finishRefs r1 a rt ub oid tr1).trace = l1 ++ Ev.commitIndex :: l2 →
      ∀ e ∈ l1, ¬ isRefEv e := by
  intro l1 l2 heq e he
  have hgen : ∀ evs : List Ev, Ev.commitIndex ∉ evs →
      tr1 ++ evs = l1 ++ Ev.commitIndex :: l2 →
      e = Ev.commitIndex ∨ e = Ev.writeWorkFiles :=
    fun evs hevs hq => no_ref_before_commit hpre hevs hq e he
  by_cases hc : a.pathspec = [] ∧ ub = false
  · rw [finishRefs_refs_case r1 a rt ub oid tr1 hc.1 hc.2] at heq
    have hnc : Ev.commitIndex ∉ (reset_refs (revToString a.rev) oid a.rla r1).2.2 := by
      intro hcm
      have := reset_refs_events (revToString a.rev) oid a.rla r1 _ hcm
      simp [isRefEv] at this
    rcases hgen _ hnc heq with hcase | hcase <;> rw [hcase] <;> simp [isRefEv]
  · rw [finishRefs_skip_case r1 a rt ub oid tr1 hc] at heq
    have heq' : tr1 ++ ([] : List Ev) = l1 ++ Ev.commitIndex :: l2 := by
      rw [List.append_nil]
      exact heq
    rcases hgen [] (by simp) heq' with hcase | hcase <;> rw [hcase] <;> simp [isRefEv]

theorem trace_nil_no_split {l1 l2 : List Ev}
    (heq : ([] : List Ev) = l1 ++ Ev.commitIndex :: l2) : False := by
  have h := heq.symm
  simp at h

/-- C4: in every execution, no BranchPointer/HistoryMarker write event
precedes a commit of the staged index in the mutation trace; and when the
branch-pointer step fails after the index phase has committed, the run
completes with a non-zero exit status, the committed index in place, and
the branch pointer unmoved. -/
theorem c4_refs_only_after_commit (r : Repo) (a : Args) :
    (∀ l1 l2, (cmd_reset r a).trace = l1 ++ Ev.commitIndex :: l2 →
        ∀ e ∈ l1, ¬ isRefEv e) ∧
    (∀ ub oid rt idx wt,
        resolveTarget r a = .ok (ub, oid) → a.patch = false →
        validate r a = .ok rt → indexPhase r rt a oid = .ok idx wt →
        a.pathspec = [] → ub = false → r.refStoreFails = true →
        (cmd_reset r a).died = none ∧ (cmd_reset r a).status = 1 ∧
        (cmd_reset r a).repo.index = idx ∧ (cmd_reset r a).repo.head = r.head) := by
  constructor
  · intro l1 l2 heq
    cases hres : resolveTarget r a with
    | error msg =>
      rw [show cmd_reset r a = mkDied r msg by simp [cmd_reset, hres]] at heq
      exact absurd heq trace_nil_no_split
    | ok pr =>
      obtain ⟨ub, oid⟩ := pr
      by_cases hpatch : a.patch
      · by_cases hrt0 : a.resetTypeArg = ResetType.NONE
        · rw [show cmd_reset r a = run_add_interactive r by
            simp [cmd_reset, hres, hpatch, hrt0]] at heq
          exact absurd heq trace_nil_no_split
        · rw [show cmd_reset r a =
              mkDied r "--patch is incompatible with --\x7bhard,mixed,soft\x7d" by
            simp [cmd_reset, hres, hpatch, hrt0]] at heq
          exact absurd heq trace_nil_no_split
      · cases hval : validate r a with
        | error msg =>
          rw [show cmd_reset r a = mkDied r msg by
            simp [cmd_reset, hres, hpatch, hval]] at heq
          exact absurd heq trace_nil_no_split
        | ok rt =>
          cases hip : indexPhase r rt a oid with
          | failed msg =>
            rw [show cmd_reset r a = mkDied r msg by
              simp [cmd_reset, hres, hpatch, hval, hip]] at heq
            exact absurd heq trace_nil_no_split
          | ret1 =>
            rw [show (cmd_reset r a).trace = [] by
              simp [cmd_reset, hres, hpatch, hval, hip]] at heq
            exact absurd heq trace_nil_no_split
          | soft =>
            have hcmd : cmd_reset r a = finishRefs r a rt ub oid [] := by
              simp [cmd_reset, hres, hpatch, hval, hip]
            rw [hcmd] at heq
            exact finishRefs_trace_good r a rt ub oid [] (by intro e he; cases he)
              l1 l2 heq
          | ok idx wt =>
            have hcmd : cmd_reset r a = finishRefs (commitIndexRepo r idx wt) a
                rt ub oid
                (if wt then [Ev.writeWorkFiles, Ev.commitIndex]
                 else [Ev.commitIndex]) := by
              simp [cmd_reset, hres, hpatch, hval, hip]
            rw [hcmd] at heq
            refine finishRefs_trace_good (commitIndexRepo r idx wt) a rt ub oid _
              ?_ l1 l2 heq
            cases wt <;> intro e he <;> simp at he
            · rw [he]
              exact Or.inl rfl
            · rcases he with he | he <;> rw [he]
              · exact Or.inr rfl
              · exact Or.inl rfl
  · intro ub oid rt idx wt hres hpatch hval hip hps hub hfail
    have hcmd : cmd_reset r a = finishRefs (commitIndexRepo r idx wt) a rt ub oid
        (if wt then [Ev.writeWorkFiles, Ev.commitIndex] else [Ev.commitIndex]) := by
      simp [cmd_reset, hres, hpatch, hval, hip]
    have hrf : (commitIndexRepo r idx wt).refStoreFails = true := by
      rw [(commitIndexRepo_fields r idx wt).2.2.2.2.2.2.2.2.2.2.2]
      exact hfail
    have hrr := reset_refs_fail (revToString a.rev) oid a.rla
      (commitIndexRepo r idx wt) hrf
    rw [hcmd, finishRefs_refs_case _ a rt ub oid _ hps hub, hrr]
    refine ⟨rfl, rfl, ?_, ?_⟩
    · show (clearBranchState (commitIndexRepo r idx wt)).index = idx
      exact (commitIndexRepo_fields r idx wt).1
    · show (clearBranchState (commitIndexRepo r idx wt)).head = r.head
      exact (commitIndexRepo_fields r idx wt).2.1

/-- C4 witness: with a failing reference store, the HARD reset on the
example repository completes with exit status 1, the committed target index
and an unmoved branch pointer. -/
theorem c4_witness :
    (cmd_reset exRepoFail aHard).died = none ∧
      (cmd_reset exRepoFail aHard).status = 1 ∧
      (cmd_reset exRepoFail aHard).repo.index
        = [("b", CacheEntry.mk 100 6 0 false)] ∧
      (cmd_reset exRepoFail aHard).repo.head = exRepoFail.head :=
  (c4_refs_only_after_commit exRepoFail aHard).2 false 12 ResetType.HARD
    [("b", CacheEntry.mk 100 6 0 false)] true rfl rfl rfl rfl rfl rfl rfl

/-- C10: for every invocation requesting patch mode together with any
explicit mode selector (--mixed, --soft, --hard, --merge or --keep), the
command fails with an error before performing any index, working-file or
reference mutation. -/
theorem c10_patch_incompatible_with_mode (r : Repo) (a : Args)
    (hp : a.patch = true) (hm : a.resetTypeArg ≠ ResetType.NONE) :
    ((cmd_reset r a).died).isSome ∧ (cmd_reset r a).repo = r ∧
      (cmd_reset r a).trace = [] := by
  cases hres : resolveTarget r a with
  | error msg => simp [cmd_reset, hres, mkDied]
  | ok pr =>
    obtain ⟨ub, oid⟩ := pr
    simp [cmd_reset, hres, hp, hm, mkDied]

/-- C10 witness: `reset --patch --hard` on the example repository dies
with the state untouched. -/
theorem c10_witness :
    ((cmd_reset exRepo aPatchHard).died).isSome ∧
      (cmd_reset exRepo aPatchHard).repo = exRepo ∧
      (cmd_reset exRepo aPatchHard).trace = [] :=
  c10_patch_incompatible_with_mode exRepo aPatchHard rfl (by decide)

/-- C8: an explicit HARD/SOFT/MERGE/KEEP mode combined with a non-empty
PathSpec always dies without mutating any state, with the
incompatible-mode message whenever no unrelated failure strikes first; and
intent-to-add combined with any effective mode other than MIXED likewise
always dies without mutating any state, with the incompatible-mode message
whenever no unrelated failure strikes first. -/
theorem c8_incompatible_mode_combinations (r : Repo) (a : Args) :
    (a.resetTypeArg = ResetType.HARD ∨ a.resetTypeArg = ResetType.SOFT ∨
     a.resetTypeArg = ResetType.MERGE ∨ a.resetTypeArg = ResetType.KEEP →
     a.pathspec ≠ [] →
       ((cmd_reset r a).died).isSome ∧ (cmd_reset r a).repo = r ∧
       (a.patch = false →
        (∀ ub oid, resolveTarget r a = .ok (ub, oid) →
         (cmd_reset r a).died =
           some ("Cannot do " ++ typeName a.resetTypeArg ++ " reset with paths."))))
  ∧ (a.intentToAdd = true → effType a ≠ ResetType.MIXED →
       ((cmd_reset r a).died).isSome ∧ (cmd_reset r a).repo = r ∧
       (a.patch = false → a.pathspec = [] →
        (effType a = ResetType.SOFT ∨ r.hasWorkTree = true) →
        (∀ ub oid, resolveTarget r a = .ok (ub, oid) →
         (cmd_reset r a).died = some "-N can only be used with --mixed"))) := by
  constructor
  · intro hmode hps
    have hne : a.resetTypeArg ≠ ResetType.MIXED ∧ a.resetTypeArg ≠ ResetType.NONE := by
      rcases hmode with h | h | h | h <;> rw [h] <;> exact ⟨by decide, by decide⟩
    cases hres : resolveTarget r a with
    | error msg =>
      refine ⟨by simp [cmd_reset, hres, mkDied], by simp [cmd_reset, hres, mkDied], ?_⟩
      intro _ ub oid hok
      simp at hok
    | ok pr =>
      obtain ⟨ub, oid⟩ := pr
      by_cases hpatch : a.patch
      · refine ⟨?_, ?_, ?_⟩
        · simp [cmd_reset, hres, hpatch, hne.2, mkDied]
        · simp [cmd_reset, hres, hpatch, hne.2, mkDied]
        · intro hpf
          rw [hpf] at hpatch
          cases hpatch
      · have hval : validate r a =
            .error ("Cannot do " ++ typeName a.resetTypeArg ++ " reset with paths.") := by
          unfold validate
          rw [if_pos ⟨hps, hne.1, hne.2⟩]
        refine ⟨?_, ?_, ?_⟩
        · simp [cmd_reset, hres, hpatch, hval, mkDied]
        · simp [cmd_reset, hres, hpatch, hval, mkDied]
        · intro _ ub' oid' hok
          simp [cmd_reset, hres, hpatch, hval, mkDied]
  · intro hita hmix
    have hnone : a.resetTypeArg ≠ ResetType.NONE := by
      intro hc
      apply hmix
      unfold effType
      rw [if_pos hc]
    cases hres : resolveTarget r a with
    | error msg =>
      refine ⟨by simp [cmd_reset, hres, mkDied], by simp [cmd_reset, hres, mkDied], ?_⟩
      intro _ _ _ ub oid hok
      simp at hok
    | ok pr =>
      obtain ⟨ub, oid⟩ := pr
      by_cases hpatch : a.patch
      · refine ⟨?_, ?_, ?_⟩
        · simp [cmd_reset, hres, hpatch, hnone, mkDied]
        · simp [cmd_reset, hres, hpatch, hnone, mkDied]
        · intro hpf
          rw [hpf] at hpatch
          cases hpatch
      · by_cases hps : a.pathspec = []
        · by_cases hwt : effType a ≠ ResetType.SOFT ∧
              (effType a ≠ ResetType.MIXED ∨ r.hasWorkTree) ∧ ¬ r.hasWorkTree
          · have hval : validate r a = .error "This operation must be run in a work tree" := by
              unfold validate
              rw [if_neg (fun hc => hc.1 hps), if_pos hwt]
            refine ⟨?_, ?_, ?_⟩
            · simp [cmd_reset, hres, hpatch, hval, mkDied]
            · simp [cmd_reset, hres, hpatch, hval, mkDied]
            · intro _ _ hsw _ _ _
              exfalso
              rcases hsw with hsw | hsw
              · exact hwt.1 hsw
              · exact hwt.2.2 hsw
          · have hval : validate r a = .error "-N can only be used with --mixed" := by
              unfold validate
              rw [if_neg (fun hc => hc.1 hps), if_neg hwt,
                if_neg (fun hc => hmix hc.1), if_pos ⟨hita, hmix⟩]
            refine ⟨?_, ?_, ?_⟩
            · simp [cmd_reset, hres, hpatch, hval, mkDied]
            · simp [cmd_reset, hres, hpatch, hval, mkDied]
            · intro _ _ _ ub' oid' hok
              simp [cmd_reset, hres, hpatch, hval, mkDied]
        · have hmx : a.resetTypeArg ≠ ResetType.MIXED := by
            intro hc
            apply hmix
            unfold effType
            rw [if_neg (by rw [hc]; decide), hc]
          have hval : validate r a =
              .error ("Cannot do " ++ typeName a.resetTypeArg ++ " reset with paths.") := by
            unfold validate
            rw [if_pos ⟨hps, hmx, hnone⟩]
          refine ⟨?_, ?_, ?_⟩
          · simp [cmd_reset, hres, hpatch, hval, mkDied]
          · simp [cmd_reset, hres, hpatch, hval, mkDied]
          · intro _ hps' _
            exact absurd hps' hps

/-- C3 counterexample: as stated, the claim asks the BranchPointer write to
append a history-log entry recording the original revision string; with the
reflog-action environment variable set, the appended entry is the variable
prefixed onto the action name and does not contain the revision string. -/
theorem c3_counterexample :
    (reset_refs "abc" 7 (some "rebase") exRepo).2.1.headLog = ["rebase: updating HEAD"] ∧
      ¬ ("abc".toList <:+: ("rebase: updating HEAD").toList) := by
  constructor
  · rfl
  · decide

/-- C3 (amended): the branch-pointer transition reads HistoryMarker
(ORIG_HEAD) and BranchPointer (HEAD); if BranchPointer has a value,
HistoryMarker is written to that value with compare-and-swap against the
HistoryMarker value just read; else, if HistoryMarker had a value,
HistoryMarker is deleted with compare-and-swap against that value; finally
BranchPointer is written to the target's address with compare-and-swap
against the BranchPointer value just read, appending a history-log entry
that records the original revision string when the reflog-action
environment variable is unset, and otherwise consists of that variable
prefixed onto the action name. -/
theorem c3_branch_pointer_transition (rev : String) (oid : Oid)
    (rla : Option String) (r : Repo) (hf : r.refStoreFails = false) :
    reset_refs rev oid rla r =
      (0,
       { r with
           head := some oid
           origHead := r.head
           origHeadLog := r.origHeadLog ++
             (match r.head with
              | some _ => [set_reflog_message rla "updating ORIG_HEAD" none]
              | none => [])
           headLog := r.headLog ++ [set_reflog_message rla "updating HEAD" (some rev)] },
       (match r.head, r.origHead with
        | some _, _ => [Ev.writeOrigHead, Ev.writeHead]
        | none, some _ => [Ev.deleteOrigHead, Ev.writeHead]
        | none, none => [Ev.writeHead])) := by
  cases hh : r.head <;> cases ho : r.origHead <;>
    simp [reset_refs, ref_cas_ok, hf, hh, ho]

/-- C3 witness: the transition on the example repository (HEAD at 11, no
HistoryMarker yet, no reflog-action variable) writes ORIG_HEAD to 11 and
HEAD to the target, with the default history-log messages. -/
theorem c3_witness :
    reset_refs "abc" 7 none exRepo =
      (0,
       { exRepo with
           head := some 7
           origHead := some 11
           origHeadLog := ["reset: updating ORIG_HEAD"]
           headLog := ["reset: moving to abc"] },
       [Ev.writeOrigHead, Ev.writeHead]) := by
  have h := c3_branch_pointer_transition "abc" 7 none exRepo rfl
  exact h

/-- C5: a path-scoped (non-empty PathSpec) reset changes only index entries
whose paths match the PathSpec; every entry whose path does not match is
identical before and after, and neither the branch pointer nor the working
files are modified. -/
theorem c5_path_scoped_frame (r : Repo) (a : Args) (hps : a.pathspec ≠ [])
    (hpatch : a.patch = false) :
    (∀ p, psMatch a.pathspec p = false →
        alookup p (cmd_reset r a).repo.index = alookup p r.index) ∧
    (cmd_reset r a).repo.head = r.head ∧
    (cmd_reset r a).repo.origHead = r.origHead ∧
    (cmd_reset r a).repo.workTree = r.workTree := by
  cases hres : resolveTarget r a with
  | error msg => simp [cmd_reset, hres, mkDied]
  | ok pr =>
    obtain ⟨ub, oid⟩ := pr
    cases hval : validate r a with
    | error msg => simp [cmd_reset, hres, hpatch, hval, mkDied]
    | ok rt =>
      have hrt : rt = ResetType.MIXED := validate_ok_paths hval hps
      subst hrt
      cases hlt : load_tree r oid with
      | none =>
        have hip : indexPhase r ResetType.MIXED a oid = .ret1 := by
          unfold indexPhase
          rw [if_neg (by decide), if_pos rfl]
          unfold read_from_tree
          rw [hlt]
        simp [cmd_reset, hres, hpatch, hval, hip]
      | some t =>
        have hip := indexPhase_mixed a hlt
        have hfin := finishRefs_skip_case (commitIndexRepo r
          (update_index_from_diff (diff_cache t r.index a.pathspec)
            a.intentToAdd r.index) false) a ResetType.MIXED ub oid
          [Ev.commitIndex] (fun hc => hps hc.1)
        have hcmd : cmd_reset r a = finishRefs (commitIndexRepo r
            (update_index_from_diff (diff_cache t r.index a.pathspec)
              a.intentToAdd r.index) false) a ResetType.MIXED ub oid
            [Ev.commitIndex] := by
          simp [cmd_reset, hres, hpatch, hval, hip]
        rw [hcmd, hfin, if_neg hps]
        refine ⟨?_, rfl, rfl, rfl⟩
        intro p hmatch
        show alookup p (update_index_from_diff (diff_cache t r.index a.pathspec)
          a.intentToAdd r.index) = alookup p r.index
        apply update_index_not_mem
        rw [diff_cache_map_path]
        intro hc
        have hpred := (List.mem_filter.mp hc).2
        rw [hmatch] at hpred
        simp at hpred

/-- C5 witness: the path-scoped `reset 12 -- b` on the example repository
leaves the non-matching entry "a", the branch pointer and the working files
untouched. -/
theorem c5_witness :
    alookup "a" (cmd_reset exRepo aPaths).repo.index = alookup "a" exRepo.index ∧
      (cmd_reset exRepo aPaths).repo.head = exRepo.head ∧
      (cmd_reset exRepo aPaths).repo.origHead = exRepo.origHead ∧
      (cmd_reset exRepo aPaths).repo.workTree = exRepo.workTree := by
  have h := c5_path_scoped_frame exRepo aPaths (by decide) rfl
  exact ⟨h.1 "a" rfl, h.2.1, h.2.2.1, h.2.2.2⟩

/-- C6 counterexample: a SOFT reset run while a cherry-pick/bisect marker is
present completes and clears that marker, so BranchPointer and HistoryMarker
are not the only state it changes. -/
theorem c6_counterexample :
    exRepo.branchState = true ∧
      (cmd_reset exRepo aSoft).died = none ∧
      (cmd_reset exRepo aSoft).repo.branchState = false := by
  refine ⟨rfl, ?_, ?_⟩ <;> rfl

/-- C6 (amended): a SOFT reset never changes the staged index contents or
working-file contents; besides clearing any in-progress
merge/cherry-pick/bisect markers, the only state it changes is
BranchPointer and HistoryMarker (with their history logs). -/
theorem c6_soft_frame (r : Repo) (a : Args)
    (hm : a.resetTypeArg = ResetType.SOFT) (hpatch : a.patch = false) :
    (cmd_reset r a).repo.index = r.index ∧
    (cmd_reset r a).repo.workTree = r.workTree ∧
    (cmd_reset r a).repo.commits = r.commits ∧
    (cmd_reset r a).repo.trees = r.trees ∧
    (cmd_reset r a).repo.bare = r.bare ∧
    (cmd_reset r a).repo.hasWorkTree = r.hasWorkTree ∧
    (cmd_reset r a).repo.refStoreFails = r.refStoreFails := by
  cases hres : resolveTarget r a with
  | error msg => simp [cmd_reset, hres, mkDied]
  | ok pr =>
    obtain ⟨ub, oid⟩ := pr
    cases hval : validate r a with
    | error msg => simp [cmd_reset, hres, hpatch, hval, mkDied]
    | ok rt =>
      have hrt : rt = ResetType.SOFT := by
        rw [validate_ok hval]
        unfold effType
        rw [if_neg (by rw [hm]; decide), hm]
      subst hrt
      have hcmd : cmd_reset r a = finishRefs r a ResetType.SOFT ub oid [] := by
        simp [cmd_reset, hres, hpatch, hval, indexPhase_soft]
      rw [hcmd]
      exact finishRefs_frame r a ResetType.SOFT ub oid []

/-- C6 witness: the SOFT reset on the example repository leaves the index,
working files and object store untouched. -/
theorem c6_witness :
    (cmd_reset exRepo aSoft).repo.index = exRepo.index ∧
      (cmd_reset exRepo aSoft).repo.workTree = exRepo.workTree ∧
      (cmd_reset exRepo aSoft).repo.commits = exRepo.commits ∧
      (cmd_reset exRepo aSoft).repo.trees = exRepo.trees ∧
      (cmd_reset exRepo aSoft).repo.bare = exRepo.bare ∧
      (cmd_reset exRepo aSoft).repo.hasWorkTree = exRepo.hasWorkTree ∧
      (cmd_reset exRepo aSoft).repo.refStoreFails = exRepo.refStoreFails :=
  c6_soft_frame exRepo aSoft rfl rfl

/-- C8 witness: `reset --hard 12 -- b` on the example repository dies with
the incompatible-mode message and an untouched state. -/
theorem c8_witness :
    ((cmd_reset exRepo aHardPaths).died).isSome ∧
      (cmd_reset exRepo aHardPaths).repo = exRepo ∧
      (cmd_reset exRepo aHardPaths).died = some "Cannot do hard reset with paths." := by
  have h := (c8_incompatible_mode_combinations exRepo aHardPaths).1
    (Or.inl rfl) (by decide)
  exact ⟨h.1, h.2.1, h.2.2 rfl false 22 rfl⟩

end GitReset
